import Mathlib

/-!
Verification of the numeric decode/control core of `tactile_servo_control`.

Shallow embedding conventions: torch/numpy tensors are modelled per-sample, so a
column of a batch tensor becomes a single scalar and a row of the output tensor
becomes a `List`.  Machine floating point is replaced by exact arithmetic: `ℚ`
where the code is purely rational, `ℝ` where `sin`/`cos`/`atan2` appear.
Fallible indexing (python `IndexError`) is modelled with `Option`.
-/

namespace TactileServoControl

open Real

/-! ### LabelEncoder (src/tactile_servo_control/learning/utils_learning.py)

The fields mirror the attributes set in `LabelEncoder.__init__`:
`label_names`, `target_label_names`, `periodic_label_names`, `target_weights`,
`tolerences` (sic, the source's spelling), and the pose limits `llims`/`ulims`
(the numpy and torch copies of the limits hold the same values, so a single
field stands for both). -/
structure LabelEncoder (K : Type) where
  label_names : List String
  target_label_names : List String
  periodic_label_names : List String
  target_weights : List K
  tolerences : List K
  llims : List K
  ulims : List K

/-- Lookup `self.llims_torch[self.label_names.index(label_name)]` (out-of-range
access, which python would raise on, is given the junk value 0; every claim
below only exercises the in-range case). -/
def LabelEncoder.llim {K : Type} [Zero K] (e : LabelEncoder K) (label_name : String) : K :=
  (e.llims.get? (e.label_names.indexOf label_name)).getD 0

/-- Lookup `self.ulims_torch[self.label_names.index(label_name)]`. -/
def LabelEncoder.ulim {K : Type} [Zero K] (e : LabelEncoder K) (label_name : String) : K :=
  (e.ulims.get? (e.label_names.indexOf label_name)).getD 0

/-- `LabelEncoder.out_dim`:
`len(self.target_label_names) + sum(self.target_label_names.count(p) for p in self.periodic_label_names)`. -/
def LabelEncoder.out_dim {K : Type} (e : LabelEncoder K) : ℕ :=
  e.target_label_names.length +
    (e.periodic_label_names.map (fun p => e.target_label_names.count p)).sum

/-- `LabelEncoder.encode_norm`: `norm_target = (((target - llim) / (ulim - llim)) * 2) - 1`
(the `unsqueeze` reshaping has no numeric content and is dropped). -/
def LabelEncoder.encode_norm {K : Type} [Field K] (e : LabelEncoder K)
    (target : K) (label_name : String) : K :=
  ((target - e.llim label_name) / (e.ulim label_name - e.llim label_name)) * 2 - 1

/-- `LabelEncoder.decode_norm`: `(((prediction + 1) / 2) * (ulim - llim)) + llim`. -/
def LabelEncoder.decode_norm {K : Type} [Field K] (e : LabelEncoder K)
    (prediction : K) (label_name : String) : K :=
  ((prediction + 1) / 2) * (e.ulim label_name - e.llim label_name) + e.llim label_name

/-- `torch.atan2 y x`, the angle of the point `(x, y)` in `(-π, π]`, i.e. the
argument of the complex number `x + y·i` (`Complex.arg` has exactly the
`atan2` quadrant semantics, including `atan2 0 0 = 0`). -/
noncomputable def atan2 (y x : ℝ) : ℝ :=
  Complex.arg (x + y * Complex.I)

/-- `LabelEncoder.encode_circnorm`: `ang = target * np.pi/180`, returning the
pair `[sin ang, cos ang]` (batch reshaping dropped). -/
noncomputable def encode_circnorm (target : ℝ) : ℝ × ℝ :=
  (Real.sin (target * π / 180), Real.cos (target * π / 180))

/-- `LabelEncoder.decode_circnorm`: `torch.atan2(*vec_prediction) * 180/np.pi`,
with `vec_prediction = [sin-component, cos-component]`. -/
noncomputable def decode_circnorm (vec_prediction : ℝ × ℝ) : ℝ :=
  atan2 vec_prediction.1 vec_prediction.2 * 180 / π

/-- `LabelEncoder.err_metric`, per target label and per sample: non-periodic
labels get `abs(labels - predictions)`; periodic labels get
`abs(atan2(sin(targ_rot - pred_rot), cos(targ_rot - pred_rot))) * 180/np.pi`
with `targ_rot = labels * np.pi/180` and `pred_rot = predictions * np.pi/180`. -/
noncomputable def LabelEncoder.err_metric (e : LabelEncoder ℝ) (label_name : String)
    (label prediction : ℝ) : ℝ :=
  if label_name ∉ e.periodic_label_names then |label - prediction|
  else
    |atan2 (Real.sin (label * π / 180 - prediction * π / 180))
        (Real.cos (label * π / 180 - prediction * π / 180))| * 180 / π

/-- Per-axis `correct` flags of `LabelEncoder.acc_metric`: the loop
`for label_name, tolerence in zip(self.target_label_names, self.tolerences):
correct = (abs_err < tolerence)`, per sample, with the per-target error values
listed in target order. -/
def accCorrect {K : Type} [LinearOrder K] : List K → List K → List Bool
  | e :: es, t :: ts => decide (e < t) :: accCorrect es ts
  | _, _ => []

/-- The `overall_correct` flag of `acc_metric`: starts at
`np.ones(batch_size, dtype=bool)` and is `&`-folded with each axis flag. -/
def overallAcc {K : Type} [LinearOrder K] (errs tols : List K) : Bool :=
  (accCorrect errs tols).foldl (fun acc b => acc && b) true

/-- The constructor line
`self.tolerences = task_params.get('tolerences', np.ones(num_targets))`: the
optional numeric-list entries of `task_params` are modelled as an association
list, and a missing `'tolerences'` key falls back to a vector of ones. -/
def tolerencesOf (task_params : List (String × List ℚ)) (num_targets : ℕ) : List ℚ :=
  (task_params.lookup "tolerences").getD (List.replicate num_targets 1)

/-- Python runtime value of a `target_weights` entry.  `encode_label`'s
periodic branch multiplies a python LIST by the weight, and what that
multiplication does is decided by the weight's type — repetition for `int`,
failure for `float`/`np.float64` — so the embedding of `encode_label` keeps
the type tag that the structure's real-valued field drops (`decode_label` and
the non-periodic branch use only the numeric value). -/
inductive PyNum where
  | int : ℤ → PyNum
  | float : ℝ → PyNum

/-- Numeric value of a python number, as used by tensor arithmetic. -/
noncomputable def PyNum.val : PyNum → ℝ
  | PyNum.int n => (n : ℝ)
  | PyNum.float x => x

/-- Python `w * lst` on a list `lst`: list REPETITION when `w` is an `int`
(empty for `w ≤ 0`); for a `float`/`np.float64` weight the expression fails —
list repetition rejects non-ints, and the numpy fallback yields ndarrays that
the later `torch.cat` rejects (on a cuda device the coercion itself raises) —
modelled `none`. -/
def pyMulList {α : Type} : PyNum → List α → Option (List α)
  | PyNum.int w, l => some (List.replicate w.toNat l).flatten
  | PyNum.float _, _ => none

/-- `LabelEncoder.encode_label`, inner walk over
`zip(self.target_label_names, self.target_weights)` with the weights at their
python types: a non-periodic target appends the single tensor
`weight * self.encode_norm(target, label_name)` (scalar-tensor product), while
a periodic target extends `encoded_pose` with
`weight * self.encode_circnorm(target)` — `encode_circnorm` returns a python
LIST of two tensors, so this is `pyMulList`, not an elementwise scaling.  An
exception aborts the whole call (`none`). -/
noncomputable def LabelEncoder.encodeTargets (e : LabelEncoder ℝ)
    (labels_dict : String → ℝ) : List (String × PyNum) → Option (List ℝ)
  | [] => some []
  | nw :: rest =>
    if nw.1 ∉ e.periodic_label_names then
      (e.encodeTargets labels_dict rest).map
        (fun acc => nw.2.val * e.encode_norm (labels_dict nw.1) nw.1 :: acc)
    else
      (pyMulList nw.2 [(encode_circnorm (labels_dict nw.1)).1,
          (encode_circnorm (labels_dict nw.1)).2]).bind
        (fun block => (e.encodeTargets labels_dict rest).map (fun acc => block ++ acc))

/-- `LabelEncoder.encode_label` (the final `torch.cat(encoded_pose, 1)` over
the per-sample pieces becomes list concatenation): `weights` is
`self.target_weights` at its python runtime types; the structure's
`target_weights` field keeps only their numeric values. -/
noncomputable def LabelEncoder.encode_label (e : LabelEncoder ℝ)
    (weights : List PyNum) (labels_dict : String → ℝ) : Option (List ℝ) :=
  e.encodeTargets labels_dict (e.target_label_names.zip weights)

/-- `LabelEncoder.decode_label`, inner walk: consume `outputs[:, ind]` (one
column for a non-periodic target, two for a periodic one), divide by the
weight, decode, advance `ind`.  Out-of-range column access — python raises
`IndexError` — is `none`, which propagates through `bind`. -/
noncomputable def LabelEncoder.decodeTargets (e : LabelEncoder ℝ) (outputs : List ℝ) :
    List (String × ℝ) → ℕ → Option (List (String × ℝ))
  | [], _ => some []
  | nw :: rest, ind =>
    if nw.1 ∉ e.periodic_label_names then
      (outputs.get? ind).bind (fun v =>
        (e.decodeTargets outputs rest (ind + 1)).map
          (fun acc => (nw.1, e.decode_norm (v / nw.2) nw.1) :: acc))
    else
      (outputs.get? ind).bind (fun s =>
        (outputs.get? (ind + 1)).bind (fun c =>
          (e.decodeTargets outputs rest (ind + 2)).map
            (fun acc => (nw.1, decode_circnorm (s / nw.2, c / nw.2)) :: acc)))

/-- `LabelEncoder.decode_label`: walk the targets from column 0; the resulting
`decoded_pose` dict is zero-initialised for every label name, so non-target
labels read back 0. -/
noncomputable def LabelEncoder.decode_label (e : LabelEncoder ℝ) (outputs : List ℝ) :
    Option (String → ℝ) :=
  (e.decodeTargets outputs (e.target_label_names.zip e.target_weights) 0).map
    (fun kvs label => (kvs.lookup label).getD 0)

/-! ### PIDController

Modelled from the spec: the `PIDController` class itself is not among the
provided source files — `setup_servo_control.py` only builds its configuration
(`kp`, `ki`, `ei_clip`, `error`) — so the step rule is taken from §4.4 of the
spec: `integral += ki ⊙ error * dt`, then
`integral = clip(integral, ei_clip.lower, ei_clip.upper)`, then
`output = kp ⊙ error + integral`, with the integral state starting at zero. -/

/-- Modelled from the spec: the gains and elementwise anti-windup clip bounds
of the PID controller, one entry per axis. -/
structure PIDParams (n : ℕ) where
  kp : Fin n → ℚ
  ki : Fin n → ℚ
  ei_lo : Fin n → ℚ
  ei_hi : Fin n → ℚ

/-- Modelled from the spec: elementwise clamp of a value into `[lo, hi]`
(numpy `clip`). -/
def clip (x lo hi : ℚ) : ℚ :=
  max lo (min x hi)

/-- Modelled from the spec: the integral-state update of one `PIDController.step`:
accumulate `ki * error * dt`, then clip into the anti-windup bounds. -/
def pidIntegralStep {n : ℕ} (p : PIDParams n) (ei e : Fin n → ℚ) (dt : ℚ) : Fin n → ℚ :=
  fun i => clip (ei i + p.ki i * e i * dt) (p.ei_lo i) (p.ei_hi i)

/-- Modelled from the spec: one `PIDController.step`, returning the new
integral state and the control output `kp ⊙ error + integral`. -/
def pidStep {n : ℕ} (p : PIDParams n) (ei e : Fin n → ℚ) (dt : ℚ) :
    (Fin n → ℚ) × (Fin n → ℚ) :=
  (pidIntegralStep p ei e dt, fun i => p.kp i * e i + pidIntegralStep p ei e dt i)

/-- Modelled from the spec: the integral state after feeding a whole error
sequence from the zeroed (`reset`) state. -/
def pidRunIntegral {n : ℕ} (p : PIDParams n) (errs : List (Fin n → ℚ)) (dt : ℚ) :
    Fin n → ℚ :=
  errs.foldl (fun ei e => pidIntegralStep p ei e dt) (fun _ => 0)

/-- One-axis controller of the spec's PID scenario:
`kp=[0.5], ki=[0.3], ei_clip=[[-5],[5]]`. -/
def pidExample : PIDParams 1 :=
  { kp := fun _ => 1 / 2, ki := fun _ => 3 / 10, ei_lo := fun _ => -5, ei_hi := fun _ => 5 }

/-! ### setup_control_params (src/tactile_servo_control/servo_control/setup_servo_control.py) -/

/-- Control-parameter record built by `setup_control_params`; `ei_clip`, a pair
`[lower, upper]` of lists in the source, is split into two fields, and the
`error` entry is kept as the source's (pre-`eval`) string. -/
structure ControlParams where
  ep_len : ℕ
  kp : List ℚ
  ki : List ℚ
  ei_clip_lower : List ℚ
  ei_clip_upper : List ℚ
  error_fn : String
  ref_pose : List ℚ
deriving DecidableEq

/-- `setup_control_params`: the four task branches of the source; any other
task name leaves `control_params` unbound (python `UnboundLocalError`),
modelled as `none`.  The `save_json_obj` side effect has no numeric content. -/
def setup_control_params (task : String) : Option ControlParams :=
  if task = "surface_3d" then
    some { ep_len := 500,
           kp := [1, 1, 1 / 2, 1 / 2, 1 / 2, 1],
           ki := [0, 0, 3 / 10, 1 / 10, 1 / 10, 0],
           ei_clip_lower := [0, 0, 0, -30, -30, 0],
           ei_clip_upper := [0, 0, 5, 30, 30, 0],
           error_fn := "lambda y, r: transform_euler(r, y)",
           ref_pose := [0, -1, 3, 0, 0, 0] }
  else if task = "edge_2d" then
    some { ep_len := 50,
           kp := [1 / 2, 1, 0, 0, 0, 1 / 2],
           ki := [3 / 10, 0, 0, 0, 0, 1 / 10],
           ei_clip_lower := [-5, 0, 0, 0, 0, -45],
           ei_clip_upper := [5, 0, 0, 0, 0, 45],
           error_fn := "lambda y, r: transform_euler(r, y)",
           ref_pose := [0, 1, 0, 0, 0, 0] }
  else if task = "edge_3d" then
    some { ep_len := 400,
           kp := [1 / 2, 1, 1 / 2, 0, 0, 1 / 2],
           ki := [3 / 10, 0, 3 / 10, 0, 0, 1 / 10],
           ei_clip_lower := [0, -5, 0, 0, 0, -45],
           ei_clip_upper := [0, 5, 5, 0, 0, 45],
           error_fn := "lambda y, r: transform_euler(r, y)",
           ref_pose := [0, 1, 3, 0, 0, 0] }
  else if task = "edge_5d" then
    some { ep_len := 250,
           kp := [1, 1 / 2, 1 / 2, 1 / 2, 1 / 2, 1 / 2],
           ki := [0, 3 / 10, 3 / 10, 1 / 10, 1 / 10, 1 / 10],
           ei_clip_lower := [0, -5, 0, -30, -30, -45],
           ei_clip_upper := [0, 5, 5, 30, 30, 45],
           error_fn := "lambda y, r: transform_euler(r, y)",
           ref_pose := [1, 0, 3, 0, 0, 0] }
  else none

/-! ### Theorems -/

theorem clip_mem (x lo hi : ℚ) (h : lo ≤ hi) : clip x lo hi ∈ Set.Icc lo hi :=
  ⟨le_max_left lo _, max_le h (min_le_right x hi)⟩

/-- C4: whenever the clip bounds are ordered on an axis, the integral state is
inside them after every single step (from any prior state) and after feeding
any nonempty error sequence from reset; and the spec's scenario holds:
`kp=[0.5], ki=[0.3], ei_clip=[[-5],[5]]`, errors `[2,2,2]`, `dt=1` leave the
integral at `1.8` and the third step's output at `2.8`. -/
theorem pid_integral_clipped :
    (∀ (n : ℕ) (p : PIDParams n) (ei e : Fin n → ℚ) (dt : ℚ) (i : Fin n),
        p.ei_lo i ≤ p.ei_hi i →
        pidIntegralStep p ei e dt i ∈ Set.Icc (p.ei_lo i) (p.ei_hi i)) ∧
      (∀ (n : ℕ) (p : PIDParams n) (errs : List (Fin n → ℚ)) (dt : ℚ) (i : Fin n),
        p.ei_lo i ≤ p.ei_hi i → errs ≠ [] →
        pidRunIntegral p errs dt i ∈ Set.Icc (p.ei_lo i) (p.ei_hi i)) ∧
      pidRunIntegral pidExample [fun _ => 2, fun _ => 2, fun _ => 2] 1 0 = 9 / 5 ∧
      (pidStep pidExample (pidRunIntegral pidExample [fun _ => 2, fun _ => 2] 1)
          (fun _ => 2) 1).2 0 = 14 / 5 := by
  refine ⟨?_, ?_,
    by norm_num [pidRunIntegral, List.foldl, pidIntegralStep, pidExample, clip, min_def, max_def],
    by norm_num [pidStep, pidRunIntegral, List.foldl, pidIntegralStep, pidExample, clip,
      min_def, max_def]⟩
  · intro n p ei e dt i h
    exact clip_mem _ _ _ h
  · intro n p errs dt i h hne
    obtain ⟨l, b, rfl⟩ := (List.eq_nil_or_concat errs).resolve_left hne
    unfold pidRunIntegral
    rw [List.concat_eq_append, List.foldl_append, List.foldl_cons, List.foldl_nil]
    exact clip_mem _ _ _ h

/-- Witness for C4: a single saturating error `100` on the scenario controller
keeps the integral inside `[-5, 5]` (both for the single-step form and the
run-from-reset form). -/
theorem pid_integral_clipped_witness :
    pidIntegralStep pidExample (fun _ => 0) (fun _ => 100) 1 0 ∈
        Set.Icc (pidExample.ei_lo 0) (pidExample.ei_hi 0) ∧
      pidRunIntegral pidExample [fun _ => 100] 1 0 ∈
        Set.Icc (pidExample.ei_lo 0) (pidExample.ei_hi 0) :=
  ⟨pid_integral_clipped.1 1 pidExample (fun _ => 0) (fun _ => 100) 1 0 (by decide),
    pid_integral_clipped.2.1 1 pidExample [fun _ => 100] 1 0 (by decide) (by decide)⟩

/-- C9: each of the four accepted tasks yields control parameters with a
positive episode length, length-6 gain and clip vectors, and elementwise
ordered clip bounds. -/
theorem setup_control_params_invariant (task : String) (cp : ControlParams)
    (h : setup_control_params task = some cp) :
    0 < cp.ep_len ∧ cp.kp.length = 6 ∧ cp.ki.length = 6 ∧
      cp.ei_clip_lower.length = 6 ∧ cp.ei_clip_upper.length = 6 ∧
      ∀ ab ∈ cp.ei_clip_lower.zip cp.ei_clip_upper, ab.1 ≤ ab.2 := by
  unfold setup_control_params at h
  split_ifs at h <;>
    first
      | exact Option.noConfusion h
      | (injection h with h; subst h; refine ⟨by norm_num, by norm_num, by norm_num,
          by norm_num, by norm_num, by norm_num [List.zip]⟩)

/-- The `edge_2d` control-parameter record, for use as a concrete witness
input. -/
def edge2dControlParams : ControlParams :=
  { ep_len := 50,
    kp := [1 / 2, 1, 0, 0, 0, 1 / 2],
    ki := [3 / 10, 0, 0, 0, 0, 1 / 10],
    ei_clip_lower := [-5, 0, 0, 0, 0, -45],
    ei_clip_upper := [5, 0, 0, 0, 0, 45],
    error_fn := "lambda y, r: transform_euler(r, y)",
    ref_pose := [0, 1, 0, 0, 0, 0] }

/-- Witness for C9 at the concrete task `"edge_2d"`. -/
theorem setup_control_params_invariant_witness :
    setup_control_params "edge_2d" = some edge2dControlParams ∧
      0 < edge2dControlParams.ep_len ∧ edge2dControlParams.kp.length = 6 := by
  have h := setup_control_params_invariant "edge_2d" edge2dControlParams rfl
  exact ⟨rfl, h.1, h.2.1⟩

theorem accCorrect_get? {K : Type} [LinearOrder K] :
    ∀ (es ts : List K) (i : ℕ) (e t : K), es.get? i = some e → ts.get? i = some t →
      (accCorrect es ts).get? i = some (decide (e < t))
  | [], _, _, _, _ => by simp
  | _ :: _, [], _, _, _ => by simp
  | e' :: es, t' :: ts, 0, e, t => by
    intro he ht
    simp only [List.get?] at he ht
    cases he; cases ht
    rfl
  | e' :: es, t' :: ts, i + 1, e, t => by
    intro he ht
    simpa [accCorrect] using accCorrect_get? es ts i e t he ht

theorem foldl_and_eq_all (l : List Bool) (a : Bool) :
    l.foldl (fun acc b => acc && b) a = (a && l.all id) := by
  induction l generalizing a with
  | nil => simp
  | cons b l ih => simp [List.foldl_cons, ih, Bool.and_assoc]

/-- C5: an axis counts as correct iff its error is strictly below that axis's
tolerance (an error exactly equal to the tolerance is not correct), and the
`overall_correct` flag is the conjunction of the per-axis flags. -/
theorem acc_metric_strict_and_overall :
    (∀ (errs tols : List ℚ) (i : ℕ) (er t : ℚ),
        errs.get? i = some er → tols.get? i = some t →
        ((accCorrect errs tols).get? i = some true ↔ er < t)) ∧
      (∀ (errs tols : List ℚ) (i : ℕ) (er : ℚ),
        errs.get? i = some er → tols.get? i = some er →
        (accCorrect errs tols).get? i = some false) ∧
      ∀ errs tols : List ℚ, overallAcc errs tols = (accCorrect errs tols).all id := by
  refine ⟨?_, ?_, ?_⟩
  · intro errs tols i er t he ht
    rw [accCorrect_get? errs tols i er t he ht]
    simp
  · intro errs tols i er he ht
    rw [accCorrect_get? errs tols i er er he ht]
    simp
  · intro errs tols
    unfold overallAcc
    rw [foldl_and_eq_all]
    simp

/-- Witness for C5 on concrete data: errors `[1, 2]` against tolerances
`[2, 2]`. -/
theorem acc_metric_strict_and_overall_witness :
    ((accCorrect [(1 : ℚ), 2] [2, 2]).get? 0 = some true ↔ (1 : ℚ) < 2) ∧
      (accCorrect [(1 : ℚ), 2] [2, 2]).get? 1 = some false ∧
      overallAcc [(1 : ℚ), 2] [2, 2] = (accCorrect [(1 : ℚ), 2] [2, 2]).all id :=
  ⟨acc_metric_strict_and_overall.1 [1, 2] [2, 2] 0 1 2 rfl rfl,
    acc_metric_strict_and_overall.2.1 [1, 2] [2, 2] 1 2 rfl rfl,
    acc_metric_strict_and_overall.2.2 [1, 2] [2, 2]⟩

/-- C10: a task-parameter dictionary carrying the key `"tolerances"` (the
spec's spelling) but not `"tolerences"` has no effect: the encoder falls back
to the default tolerance vector of ones, so every axis flag tests its error
against `1`. -/
theorem tolerances_key_is_ignored (task_params : List (String × List ℚ))
    (num_targets : ℕ) (v : List ℚ)
    (_hmis : task_params.lookup "tolerances" = some v)
    (habs : task_params.lookup "tolerences" = none) :
    tolerencesOf task_params num_targets = List.replicate num_targets 1 ∧
      ∀ (errs : List ℚ) (i : ℕ) (er : ℚ), errs.get? i = some er → i < num_targets →
        ((accCorrect errs (tolerencesOf task_params num_targets)).get? i
          = some true ↔ er < 1) := by
  have hdef : tolerencesOf task_params num_targets = List.replicate num_targets 1 := by
    unfold tolerencesOf
    rw [habs]
    rfl
  refine ⟨hdef, ?_⟩
  intro errs i er he hi
  have ht : (List.replicate num_targets (1 : ℚ)).get? i = some 1 := by
    simp [List.get?_eq_getElem?, hi]
  rw [hdef, accCorrect_get? errs _ i er 1 he ht]
  simp

/-- Witness for C10: a dictionary that only has the `"tolerances"` key; the
error `1/2` on axis 0 then counts as correct against the default tolerance 1. -/
theorem tolerances_key_is_ignored_witness :
    tolerencesOf [("tolerances", [5])] 1 = List.replicate 1 1 ∧
      ((accCorrect [(1 : ℚ) / 2] (tolerencesOf [("tolerances", [5])] 1)).get? 0
        = some true ↔ (1 : ℚ) / 2 < 1) := by
  have h := tolerances_key_is_ignored [("tolerances", [5])] 1 [5] (by decide) (by decide)
  exact ⟨h.1, h.2 [(1 : ℚ) / 2] 0 (1 / 2) rfl (by decide)⟩

/-- Key fact about the embedding of `torch.atan2`: applied to the sine and
cosine of an angle `x` (radians) it returns the representative of `x` modulo
`2π` lying in `(-π, π]`. -/
theorem atan2_sin_cos (x : ℝ) :
    ∃ z : ℤ, atan2 (Real.sin x) (Real.cos x) = x - z * (2 * π) ∧
      x - z * (2 * π) ∈ Set.Ioc (-π) π := by
  refine ⟨toIocDiv Real.two_pi_pos (-π) x, ?_⟩
  have hsub : x - toIocMod Real.two_pi_pos (-π) x
      = toIocDiv Real.two_pi_pos (-π) x • (2 * π) := self_sub_toIocMod _ _ _
  rw [zsmul_eq_mul] at hsub
  have hm : x - (toIocDiv Real.two_pi_pos (-π) x : ℝ) * (2 * π)
      = toIocMod Real.two_pi_pos (-π) x := by linarith
  have hmem : toIocMod Real.two_pi_pos (-π) x ∈ Set.Ioc (-π) π := by
    have h := toIocMod_mem_Ioc Real.two_pi_pos (-π) x
    rwa [show -π + 2 * π = π by ring] at h
  have hx : x = toIocMod Real.two_pi_pos (-π) x
      + (toIocDiv Real.two_pi_pos (-π) x : ℝ) * (2 * π) := by linarith
  refine ⟨?_, by rw [hm]; exact hmem⟩
  have key : atan2 (Real.sin x) (Real.cos x) = toIocMod Real.two_pi_pos (-π) x := by
    conv_lhs => rw [hx]
    rw [Real.sin_add_int_mul_two_pi, Real.cos_add_int_mul_two_pi]
    unfold atan2
    rw [Complex.ofReal_sin, Complex.ofReal_cos]
    exact Complex.arg_cos_add_sin_mul_I hmem
  rw [hm]
  exact key

/-- C2: decoding the circular encoding of any angle `θ` (degrees) returns an
angle congruent to `θ` modulo `360°`, and `decode_circnorm` lands in
`(-180°, 180°]` on every input pair, whatever its magnitude. -/
theorem decode_encode_circnorm_roundtrip :
    (∀ θ : ℝ, ∃ k : ℤ, decode_circnorm (encode_circnorm θ) = θ + 360 * k) ∧
      ∀ v : ℝ × ℝ, decode_circnorm v ∈ Set.Ioc (-180 : ℝ) 180 := by
  have hπ : (0 : ℝ) < π := Real.pi_pos
  constructor
  · intro θ
    obtain ⟨z, hz, _⟩ := atan2_sin_cos (θ * π / 180)
    refine ⟨-z, ?_⟩
    show atan2 (encode_circnorm θ).1 (encode_circnorm θ).2 * 180 / π = θ + 360 * (-z : ℤ)
    rw [show (encode_circnorm θ).1 = Real.sin (θ * π / 180) from rfl,
      show (encode_circnorm θ).2 = Real.cos (θ * π / 180) from rfl, hz]
    push_cast
    field_simp
    ring
  · intro v
    have h1 := Complex.neg_pi_lt_arg ((v.2 : ℂ) + (v.1 : ℂ) * Complex.I)
    have h2 := Complex.arg_le_pi ((v.2 : ℂ) + (v.1 : ℂ) * Complex.I)
    rw [Set.mem_Ioc]
    unfold decode_circnorm atan2
    constructor
    · rw [lt_div_iff hπ]; nlinarith
    · rw [div_le_iff hπ]; nlinarith

/-- C3: on a periodic axis, `err_metric` is the minimal angular distance on the
circle: it always lies in `[0°, 180°]`, and a reference of `179°` against an
observed `-179°` yields an error of `2°` (not `358°`). -/
theorem err_metric_periodic_minimal_distance (e : LabelEncoder ℝ) (label_name : String)
    (hper : label_name ∈ e.periodic_label_names) :
    (∀ lab pred : ℝ, e.err_metric label_name lab pred ∈ Set.Icc 0 180) ∧
      e.err_metric label_name 179 (-179) = 2 := by
  have hπ : (0 : ℝ) < π := Real.pi_pos
  have hif : ∀ lab pred : ℝ, e.err_metric label_name lab pred
      = |atan2 (Real.sin (lab * π / 180 - pred * π / 180))
          (Real.cos (lab * π / 180 - pred * π / 180))| * 180 / π := by
    intro lab pred
    unfold LabelEncoder.err_metric
    rw [if_neg (not_not_intro hper)]
  constructor
  · intro lab pred
    rw [hif, Set.mem_Icc]
    have habs : |atan2 (Real.sin (lab * π / 180 - pred * π / 180))
        (Real.cos (lab * π / 180 - pred * π / 180))| ≤ π := Complex.abs_arg_le_pi _
    have habs0 : (0 : ℝ) ≤ |atan2 (Real.sin (lab * π / 180 - pred * π / 180))
        (Real.cos (lab * π / 180 - pred * π / 180))| := abs_nonneg _
    constructor
    · positivity
    · rw [div_le_iff hπ]; nlinarith
  · rw [hif]
    have harg : (179 : ℝ) * π / 180 - (-179 : ℝ) * π / 180 = -π / 90 + (1 : ℤ) * (2 * π) := by
      push_cast; ring
    rw [harg, Real.sin_add_int_mul_two_pi, Real.cos_add_int_mul_two_pi]
    have hval : atan2 (Real.sin (-π / 90)) (Real.cos (-π / 90)) = -π / 90 := by
      unfold atan2
      rw [Complex.ofReal_sin, Complex.ofReal_cos]
      exact Complex.arg_cos_add_sin_mul_I ⟨by nlinarith, by nlinarith⟩
    rw [hval, abs_of_nonpos (by nlinarith : -π / 90 ≤ (0 : ℝ))]
    field_simp
    ring

/-- Witness for C3 at a concrete periodic encoder, fully instantiated: the
wrap-around pair `(179°, -179°)` errs by `2°` and the pair `(0°, 90°)` errs
within `[0°, 180°]`. -/
theorem err_metric_periodic_minimal_distance_witness :
    let e : LabelEncoder ℝ :=
      { label_names := ["x", "y", "Rz"], target_label_names := ["x", "Rz"],
        periodic_label_names := ["Rz"], target_weights := [1, 1], tolerences := [1, 1],
        llims := [-5, -5, -180], ulims := [5, 5, 180] }
    e.err_metric "Rz" 179 (-179) = 2 ∧ e.err_metric "Rz" 0 90 ∈ Set.Icc 0 180 := by
  intro e
  have h := err_metric_periodic_minimal_distance e "Rz" (by decide)
  exact ⟨h.2, h.1 0 90⟩

/-- C1: for bounds with `llim < ulim`, a weight `w ≠ 0` and a physical value
`v ∈ [llim, ulim]`, dividing the weighted encoding `w * encode_norm v` by `w`
and decoding recovers `v` exactly (exact arithmetic stands in for the
floating-point `1e-5` tolerance). -/
theorem encode_decode_norm_roundtrip (e : LabelEncoder ℚ) (label_name : String) (w v : ℚ)
    (hlim : e.llim label_name < e.ulim label_name) (hw : w ≠ 0)
    (hlo : e.llim label_name ≤ v) (hhi : v ≤ e.ulim label_name) :
    e.decode_norm (w * e.encode_norm v label_name / w) label_name = v := by
  have hne : e.ulim label_name - e.llim label_name ≠ 0 := sub_ne_zero.mpr (ne_of_gt hlim)
  unfold LabelEncoder.encode_norm LabelEncoder.decode_norm
  field_simp
  ring

/-- Witness for C1 on a concrete encoder: label `"x"` with limits `[0, 4]`,
weight `3`, value `1`. -/
theorem encode_decode_norm_roundtrip_witness :
    let e : LabelEncoder ℚ :=
      { label_names := ["x", "y"], target_label_names := ["x"],
        periodic_label_names := [], target_weights := [3], tolerences := [1],
        llims := [0, -1], ulims := [4, 1] }
    e.llim "x" < e.ulim "x" ∧ (3 : ℚ) ≠ 0 ∧ e.llim "x" ≤ 1 ∧ (1 : ℚ) ≤ e.ulim "x" ∧
      e.decode_norm (3 * e.encode_norm 1 "x" / 3) "x" = 1 := by
  refine ⟨by decide, by decide, by decide, by decide, ?_⟩
  exact encode_decode_norm_roundtrip _ "x" 3 1 (by decide) (by decide) (by decide) (by decide)

/-! ### Encoded-width bookkeeping shared by the `encode_label`/`decode_label`
claims -/

theorem countP_mem_cons (p : String) (ps : List String) (hp : p ∉ ps) :
    ∀ ts : List String,
      ts.countP (fun t => decide (t ∈ p :: ps))
        = ts.count p + ts.countP (fun t => decide (t ∈ ps))
  | [] => by simp
  | a :: ts => by
    have ih := countP_mem_cons p ps hp ts
    by_cases hap : a = p
    · subst hap
      have hna : a ∉ ps := hp
      simp [List.countP_cons, List.count_cons, hna] at ih ⊢
      omega
    · by_cases haps : a ∈ ps
      · simp [List.countP_cons, List.count_cons, hap, haps] at ih ⊢
        omega
      · simp [List.countP_cons, List.count_cons, hap, haps] at ih ⊢
        omega

theorem sum_count_eq_countP :
    ∀ (periodic ts : List String), periodic.Nodup →
      (periodic.map (fun p => ts.count p)).sum
        = ts.countP (fun t => decide (t ∈ periodic))
  | [], ts, _ => by simp
  | p :: ps, ts, hnd => by
    have hp : p ∉ ps := (List.nodup_cons.mp hnd).1
    have ih := sum_count_eq_countP ps ts (List.nodup_cons.mp hnd).2
    rw [List.map_cons, List.sum_cons, ih, countP_mem_cons p ps hp ts]

theorem zip_width_sum (periodic : List String) :
    ∀ (ts : List String) (ws : List ℝ), ws.length = ts.length →
      ((ts.zip ws).map (fun nw : String × ℝ =>
          if nw.1 ∉ periodic then 1 else 2)).sum
        = ts.length + ts.countP (fun t => decide (t ∈ periodic))
  | [], _, _ => by simp
  | t :: ts, [], h => by simp at h
  | t :: ts, w :: ws, h => by
    have ih := zip_width_sum periodic ts ws (by simpa using h)
    by_cases hper : t ∈ periodic
    · simp [List.zip_cons_cons, List.countP_cons, hper] at ih ⊢
      omega
    · simp [List.zip_cons_cons, List.countP_cons, hper] at ih ⊢
      omega

/-- Concrete two-target encoder (one periodic, python-int weights `[1, 2]`)
on which `encode_label`'s periodic weighting misbehaves. -/
noncomputable def ce6 : LabelEncoder ℝ :=
  { label_names := ["x", "y", "Rz"], target_label_names := ["x", "Rz"],
    periodic_label_names := ["Rz"], target_weights := [1, 2], tolerences := [1, 1],
    llims := [-5, -5, -180], ulims := [5, 5, 180] }

/-- C6 — the code evaluated at the failing input: with python-int weights
`[1, 2]` on targets `["x", "Rz"]` (periodic `["Rz"]`), the periodic branch's
`weight * self.encode_circnorm(target)` is list multiplication, repeating the
UNWEIGHTED `[sin, cos]` pair twice, so the encoded label has 5 components
while `out_dim = 3`; and a `float` weight `2.0` on the periodic target raises
instead of encoding.  Either way the claimed "each periodic target contributes
2 components and `out_dim` equals the encoded length" fails on the code,
though it is the evident intent: `decode_label` (documented `Inverse of
encode`) consumes exactly 2 weight-scaled columns per periodic target. -/
theorem encode_label_weighted_periodic_bug :
    ce6.out_dim = 3 ∧
      (ce6.encode_label [PyNum.int 1, PyNum.int 2] (fun _ => 0)).map List.length
        = some 5 ∧
      ce6.encode_label [PyNum.int 1, PyNum.float 2] (fun _ => 0) = none := by
  refine ⟨rfl, ?_, ?_⟩
  · simp [ce6, LabelEncoder.encode_label, LabelEncoder.encodeTargets, pyMulList,
      List.replicate]
  · simp [ce6, LabelEncoder.encode_label, LabelEncoder.encodeTargets, pyMulList]

theorem decodeTargets_none_iff (e : LabelEncoder ℝ) (outputs : List ℝ) :
    ∀ (l : List (String × ℝ)) (ind : ℕ), ind ≤ outputs.length →
      (e.decodeTargets outputs l ind = none ↔
        outputs.length < ind + (l.map (fun nw : String × ℝ =>
          if nw.1 ∉ e.periodic_label_names then 1 else 2)).sum)
  | [], ind, hind => by
    simp only [LabelEncoder.decodeTargets, List.map_nil, List.sum_nil]
    constructor
    · intro h; exact absurd h (by simp)
    · intro h; omega
  | nw :: rest, ind, hind => by
    by_cases hper : nw.1 ∉ e.periodic_label_names
    · by_cases hlt : ind < outputs.length
      · obtain ⟨v, hv⟩ : ∃ v, outputs.get? ind = some v := ⟨_, List.get?_eq_get hlt⟩
        have ih := decodeTargets_none_iff e outputs rest (ind + 1) (by omega)
        simp only [LabelEncoder.decodeTargets, if_pos hper, hv, Option.some_bind,
          Option.map_eq_none', ih, List.map_cons, List.sum_cons]
        omega
      · have hnone : outputs.get? ind = none := List.get?_eq_none.mpr (by omega)
        simp only [LabelEncoder.decodeTargets, if_pos hper, hnone, Option.none_bind,
          List.map_cons, List.sum_cons]
        exact iff_of_true trivial (by omega)
    · by_cases hlt : ind + 1 < outputs.length
      · obtain ⟨s, hs⟩ : ∃ s, outputs.get? ind = some s := ⟨_, List.get?_eq_get (by omega)⟩
        obtain ⟨c, hc⟩ : ∃ c, outputs.get? (ind + 1) = some c := ⟨_, List.get?_eq_get hlt⟩
        have ih := decodeTargets_none_iff e outputs rest (ind + 2) (by omega)
        simp only [LabelEncoder.decodeTargets, if_neg hper, hs, hc, Option.some_bind,
          Option.map_eq_none', ih, List.map_cons, List.sum_cons]
        omega
      · by_cases hlt1 : ind < outputs.length
        · obtain ⟨s, hs⟩ : ∃ s, outputs.get? ind = some s := ⟨_, List.get?_eq_get hlt1⟩
          have hc : outputs.get? (ind + 1) = none := List.get?_eq_none.mpr (by omega)
          simp only [LabelEncoder.decodeTargets, if_neg hper, hs, hc, Option.some_bind,
            Option.none_bind, List.map_cons, List.sum_cons]
          exact iff_of_true trivial (by omega)
        · have hs : outputs.get? ind = none := List.get?_eq_none.mpr (by omega)
          simp only [LabelEncoder.decodeTargets, if_neg hper, hs, Option.none_bind,
            List.map_cons, List.sum_cons]
          exact iff_of_true trivial (by omega)

/-- C8 (amended): `decode_label` fails — the out-of-range column access that
python raises `IndexError` on — exactly when the output row is NARROWER than
`out_dim`; a row WIDER than `out_dim` decodes successfully, its extra
components silently ignored (refuting the claim for that direction). -/
theorem decode_label_none_iff (e : LabelEncoder ℝ) (outputs : List ℝ)
    (hw : e.target_weights.length = e.target_label_names.length)
    (hnd : e.periodic_label_names.Nodup) :
    e.decode_label outputs = none ↔ outputs.length < e.out_dim := by
  unfold LabelEncoder.decode_label
  rw [Option.map_eq_none',
    decodeTargets_none_iff e outputs (e.target_label_names.zip e.target_weights) 0
      (Nat.zero_le _),
    zip_width_sum e.periodic_label_names e.target_label_names e.target_weights hw]
  unfold LabelEncoder.out_dim
  rw [sum_count_eq_countP e.periodic_label_names e.target_label_names hnd]
  omega

/-- Single-target encoder with `out_dim = 1`, for the C8 counterexample. -/
noncomputable def ce8 : LabelEncoder ℝ :=
  { label_names := ["x", "y"], target_label_names := ["x"],
    periodic_label_names := [], target_weights := [1], tolerences := [1],
    llims := [0, 0], ulims := [1, 1] }

/-- Counterexample to C8 as stated: an output row of width 2 against
`out_dim = 1` does NOT surface an error — `decode_label` succeeds, silently
ignoring the extra component. -/
theorem decode_label_wide_row_counterexample :
    ce8.out_dim = 1 ∧ ce8.decode_label [2, 99] ≠ none := by
  constructor
  · rfl
  · simp [ce8, LabelEncoder.decode_label, LabelEncoder.decodeTargets]

/-- Witness for the amended C8 on `ce8`: a row of width 0 (narrower than
`out_dim = 1`) fails. -/
theorem decode_label_none_iff_witness :
    ce8.decode_label [] = none ↔ ([] : List ℝ).length < ce8.out_dim :=
  decode_label_none_iff ce8 [] (by decide) (by decide)

/-- Degenerate encoder with `ulim == llim` on label `"x"`, for C7. -/
def ce7 : LabelEncoder ℚ :=
  { label_names := ["x"], target_label_names := ["x"], periodic_label_names := [],
    target_weights := [1], tolerences := [1], llims := [0], ulims := [0] }

/-- Counterexample to C7 as stated: `encode_norm` has no `ulim == llim`
validation, so encoding with degenerate bounds still RETURNS a numeric result
instead of failing.  (In the exact-arithmetic model division by zero is 0, so
the result is `-1`; under torch's IEEE tensor arithmetic the same unchecked
division yields `±inf`/`nan` — in both semantics a numeric value comes back
and no configuration error is raised.) -/
theorem encode_norm_degenerate_counterexample :
    ce7.ulim "x" = ce7.llim "x" ∧ ce7.encode_norm 1 "x" = -1 := by
  refine ⟨by decide, ?_⟩
  norm_num [ce7, LabelEncoder.encode_norm, LabelEncoder.llim, LabelEncoder.ulim]

/-- C7 (amended): when `ulim == llim` for a label, `encode_norm` performs no
validation and returns a numeric result — under the exact model's
division-by-zero convention, the constant `-1` — rather than failing with a
configuration error. -/
theorem encode_norm_degenerate_total (e : LabelEncoder ℚ) (target : ℚ)
    (label_name : String) (h : e.ulim label_name = e.llim label_name) :
    e.encode_norm target label_name = -1 := by
  unfold LabelEncoder.encode_norm
  rw [h, sub_self, div_zero, zero_mul, zero_sub]

/-- Witness for the amended C7 on `ce7` at target value `2`. -/
theorem encode_norm_degenerate_total_witness :
    ce7.ulim "x" = ce7.llim "x" ∧ ce7.encode_norm 2 "x" = -1 :=
  ⟨by decide, encode_norm_degenerate_total ce7 2 "x" (by decide)⟩

end TactileServoControl
